import Mathlib

/-!
Verification of the eip7702cleaner repository: a shallow embedding of its
transaction construction and dual-signature pipeline (pkg/cmd/clear.go and the
variant in src/unnamed/part_001), its fee estimator, code inspector
(pkg/cmd/check.go), broadcast and confirmation driver, and RPC result parsing,
together with theorems about the claims of the specification.

Machine integers are modelled as `Nat`; byte strings as `List Nat` with every
element below 256; Go strings as `List Char`. The external cryptographic
primitives of go-ethereum (`crypto.Keccak256`, `crypto.Sign`) are abstracted
as a `Crypto` parameter, their documented contracts (32-byte digest, 65-byte
recoverable signature) appearing as hypotheses where needed.
-/

namespace EIP7702

set_option maxRecDepth 8000

/-- Builds the minimal big-endian base-256 digits of `n`; structural fuel
keeps the recursion kernel-computable. -/
def natToBEBytesAux : Nat → Nat → List Nat
  | _, 0 => []
  | 0, _ + 1 => []
  | fuel + 1, n + 1 => natToBEBytesAux fuel ((n + 1) / 256) ++ [(n + 1) % 256]

/-- Minimal big-endian byte representation of a natural number, as go-ethereum
RLP encodes unsigned integers and as `big.Int.Bytes` produces. -/
def natToBEBytes (n : Nat) : List Nat := natToBEBytesAux n n

/-- Big-endian interpretation of a byte list, as `big.Int.SetBytes` does. -/
def natFromBEBytes (bs : List Nat) : Nat := Nat.ofDigits 256 bs.reverse

/-- RLP values: byte strings and (heterogeneous) lists. -/
inductive RLPItem where
  | bytes : List Nat → RLPItem
  | list : List RLPItem → RLPItem

/-- RLP encoding of a byte string (go-ethereum rlp string rules). -/
def rlpEncodeBytes (bs : List Nat) : List Nat :=
  if bs.length = 1 ∧ bs.headD 0 < 128 then bs
  else if bs.length ≤ 55 then (128 + bs.length) :: bs
  else (183 + (natToBEBytes bs.length).length) :: (natToBEBytes bs.length ++ bs)

/-- RLP list header prepended to an already-encoded list payload. -/
def rlpWrapPayload (body : List Nat) : List Nat :=
  if body.length ≤ 55 then (192 + body.length) :: body
  else (247 + (natToBEBytes body.length).length) :: (natToBEBytes body.length ++ body)

mutual

/-- RLP encoding of a value. -/
def rlpEncode : RLPItem → List Nat
  | .bytes bs => rlpEncodeBytes bs
  | .list its => rlpWrapPayload (rlpEncodeList its)

/-- Concatenation of the RLP encodings of the members of a list. -/
def rlpEncodeList : List RLPItem → List Nat
  | [] => []
  | it :: rest => rlpEncode it ++ rlpEncodeList rest

end

/-- Total length (header included) of the RLP item starting at the head of
`bs`, following the header-byte rules of go-ethereum's decoder. -/
def rlpItemLength (bs : List Nat) : Option Nat :=
  match bs with
  | [] => none
  | b :: rest =>
    if b < 128 then some 1
    else if b < 184 then some (1 + (b - 128))
    else if b < 192 then
      if rest.length < b - 183 then none
      else some (1 + (b - 183) + natFromBEBytes (rest.take (b - 183)))
    else if b < 248 then some (1 + (b - 192))
    else
      if rest.length < b - 247 then none
      else some (1 + (b - 247) + natFromBEBytes (rest.take (b - 247)))

/-- Splits a concatenation of RLP items into the raw encoding of each item;
fuelled so the recursion is structural. -/
def rlpSplitItemsAux : Nat → List Nat → Option (List (List Nat))
  | _, [] => some []
  | 0, _ :: _ => none
  | fuel + 1, b :: bs =>
    match rlpItemLength (b :: bs) with
    | none => none
    | some n =>
      match rlpSplitItemsAux fuel ((b :: bs).drop n) with
      | none => none
      | some rest => some ((b :: bs).take n :: rest)

/-- Splits a concatenation of RLP items into the raw encoding of each item. -/
def rlpSplitItems (bs : List Nat) : Option (List (List Nat)) :=
  rlpSplitItemsAux bs.length bs

/-- Reads the outer list header of an RLP-encoded list, requires it to span the
whole input exactly (as `rlp.DecodeBytes` does), and returns the raw encodings
of the top-level members — the observable content of decoding into
`[]interface{}` for canonical input. -/
def rlpSplitTop (bs : List Nat) : Option (List (List Nat)) :=
  match bs with
  | [] => none
  | b :: rest =>
    if b < 192 then none
    else if b < 248 then
      if rest.length = b - 192 then rlpSplitItems rest else none
    else
      if rest.length < b - 247 then none
      else
        if (rest.drop (b - 247)).length = natFromBEBytes (rest.take (b - 247)) then
          rlpSplitItems (rest.drop (b - 247))
        else none

/-- Lowercase hex digit character for a nibble, as `hex.EncodeToString` emits. -/
def hexDigitChar (n : Nat) : Char :=
  if n < 10 then Char.ofNat (48 + n) else Char.ofNat (87 + n)

/-- Hex encoding of a byte list: two lowercase digits per byte. -/
def hexEncode : List Nat → List Char
  | [] => []
  | b :: bs => hexDigitChar (b / 16) :: hexDigitChar (b % 16) :: hexEncode bs

/-- Value of one hex digit character, both cases accepted, as
`hex.DecodeString` and `big.Int.SetString(·, 16)` do. -/
def hexCharVal (c : Char) : Option Nat :=
  if 48 ≤ c.toNat ∧ c.toNat ≤ 57 then some (c.toNat - 48)
  else if 97 ≤ c.toNat ∧ c.toNat ≤ 102 then some (c.toNat - 87)
  else if 65 ≤ c.toNat ∧ c.toNat ≤ 70 then some (c.toNat - 55)
  else none

/-- Hex decoding; fails on odd length or an invalid digit, as
`hex.DecodeString` does. -/
def hexDecode : List Char → Option (List Nat)
  | [] => some []
  | [_] => none
  | c1 :: c2 :: rest =>
    match hexCharVal c1, hexCharVal c2, hexDecode rest with
    | some h, some l, some bs => some ((16 * h + l) :: bs)
    | _, _, _ => none

/-- External cryptographic primitives of go-ethereum's `crypto` package,
abstracted as parameters of the embedding. -/
structure Crypto where
  keccak256 : List Nat → List Nat
  sign : List Nat → Nat → List Nat

/-- Contract of `crypto.Keccak256`: the digest is 32 bytes of byte values. -/
def KeccakOk (C : Crypto) : Prop :=
  ∀ bs, (C.keccak256 bs).length = 32 ∧ ∀ b ∈ C.keccak256 bs, b < 256

/-- Contract of `crypto.Sign`: a 65-byte recoverable signature r ‖ s ‖ v of
byte values. -/
def SignOk (C : Crypto) : Prop :=
  ∀ d k, (C.sign d k).length = 65 ∧ ∀ b ∈ C.sign d k, b < 256

/-- Transaction type marker of EIP-7702 set-code transactions. -/
def SET_CODE_TX_TYPE : Nat := 0x04

/-- Magic byte prepended to the authorization-tuple RLP before hashing. -/
def MAGIC : Nat := 0x05

/-- RLP item of an unsigned integer (uint64 or non-negative big.Int). -/
def natRLP (n : Nat) : RLPItem := .bytes (natToBEBytes n)

/-- The all-zero 20-byte address `common.Address{}` (clear operation). -/
def zeroAddress : List Nat := List.replicate 20 0

/-- Authorization-tuple signing hash:
keccak256(MAGIC ‖ rlp([chainId, addr, nonce])), from `authTupleMessage`. -/
def authTupleMessage (C : Crypto) (chainId : Nat) (addr : List Nat) (nonce : Nat) : List Nat :=
  C.keccak256 (MAGIC :: rlpEncode (.list [natRLP chainId, .bytes addr, natRLP nonce]))

/-- Signed authorization tuple [chainId, addr, nonce, yParity, r, s] as
`build7702Tx` embeds it: yParity is the raw byte sig[64], r is sig[:32] and s
is sig[32:64] read big-endian. -/
def authSigItems (C : Crypto) (chainId : Nat) (addr : List Nat) (userNonce userPriv : Nat) :
    List RLPItem :=
  [natRLP chainId, .bytes addr, natRLP userNonce,
   natRLP ((C.sign (authTupleMessage C chainId addr userNonce) userPriv).getD 64 0),
   natRLP (natFromBEBytes ((C.sign (authTupleMessage C chainId addr userNonce) userPriv).take 32)),
   natRLP (natFromBEBytes (((C.sign (authTupleMessage C chainId addr userNonce) userPriv).drop 32).take 32))]

/-- Top-level fields of the unsigned 0x04 envelope assembled by `build7702Tx`:
chainId, relayerNonce, gasTip, gasFeeCap, gasLimit, contractAddr, value 0,
txData, empty access list, and the one-entry authorization list. -/
def envelopeItems (C : Crypto) (chainId userPriv relayerNonce userNonce gasTip gasFeeCap gasLimit : Nat) (contractAddr txData : List Nat) : List RLPItem :=
  [natRLP chainId, natRLP relayerNonce, natRLP gasTip, natRLP gasFeeCap, natRLP gasLimit,
   .bytes contractAddr, natRLP 0, .bytes txData, .list [],
   .list [.list (authSigItems C chainId contractAddr userNonce userPriv)]]

/-- Hex string of the type byte 0x04 followed by the RLP envelope, as
`build7702Tx` returns it. The source's error returns (signing or encoding
failure) cannot occur in the model, the abstract primitives being total. -/
def build7702Tx (C : Crypto) (chainId userPriv relayerNonce userNonce gasTip gasFeeCap gasLimit : Nat) (contractAddr txData : List Nat) : List Char :=
  hexEncode (SET_CODE_TX_TYPE ::
    rlpEncode (.list (envelopeItems C chainId userPriv relayerNonce userNonce gasTip gasFeeCap gasLimit contractAddr txData)))

/-- Concatenation of a list of byte strings. -/
def concatAll : List (List Nat) → List Nat
  | [] => []
  | c :: cs => c ++ concatAll cs

/-- Outer signing step `signEIP7702Tx`: hex-decode, check the 0x04 type byte,
RLP-decode the payload, hash 0x04 ‖ payload with keccak256, sign with the
relayer key, append [yParity, r, s] to the decoded list and re-encode.
`none` models every error return of the source. -/
def signEIP7702Tx (C : Crypto) (rawHex : List Char) (relayerPriv : Nat) : Option (List Char) :=
  match hexDecode rawHex with
  | none => none
  | some txBytes =>
    match txBytes with
    | [] => none
    | t :: payload =>
      if t = SET_CODE_TX_TYPE then
        match rlpSplitTop payload with
        | none => none
        | some chunks =>
          let sig := C.sign (C.keccak256 (SET_CODE_TX_TYPE :: payload)) relayerPriv
          let yParity := sig.getD 64 0
          let r := natFromBEBytes (sig.take 32)
          let s := natFromBEBytes ((sig.drop 32).take 32)
          some (hexEncode (SET_CODE_TX_TYPE ::
            rlpWrapPayload (concatAll chunks
              ++ rlpEncodeBytes (natToBEBytes yParity)
              ++ rlpEncodeBytes (natToBEBytes r)
              ++ rlpEncodeBytes (natToBEBytes s))))
      else none

/-- Request parameters of `GenerateSet7702AuthTx`, field for field. -/
structure SetAuthorizationRequest where
  UserEOAPrivateKey : Nat
  UserEOANonce : Nat
  RelayerEOAPrivateKey : Nat
  RelayerNonce : Nat
  TemplateAddress : List Nat
  ChainId : Nat
  GasTip : Nat
  GasFeeCap : Nat
  GasLimit : Nat

/-- `GenerateSet7702AuthTx` as defined in pkg/cmd/clear.go: builds the tuple
with `common.Address{}`, ignoring `req.TemplateAddress`. -/
def GenerateSet7702AuthTx (C : Crypto) (req : SetAuthorizationRequest) : Option (List Char) :=
  signEIP7702Tx C
    (build7702Tx C req.ChainId req.UserEOAPrivateKey req.RelayerNonce req.UserEOANonce
      req.GasTip req.GasFeeCap req.GasLimit zeroAddress [])
    req.RelayerEOAPrivateKey

/-- The variant of GenerateSet7702AuthTx in src/unnamed/part_001: passes
`req.TemplateAddress` through to `build7702Tx`. -/
def GenerateSet7702AuthTxV1 (C : Crypto) (req : SetAuthorizationRequest) : Option (List Char) :=
  signEIP7702Tx C
    (build7702Tx C req.ChainId req.UserEOAPrivateKey req.RelayerNonce req.UserEOANonce
      req.GasTip req.GasFeeCap req.GasLimit req.TemplateAddress [])
    req.RelayerEOAPrivateKey

/-- Network responses that `getSuggestedGasFees` consumes.
`priorityFee = none` models an RPC error, an unmarshal error or an empty
result for eth_maxPriorityFeePerGas (all fall back); `blockFetch = none`
models a transport error of eth_getBlockByNumber (a hard error);
`blockFetch = some none` an absent baseFeePerGas (falls back);
`gasPrice = none` an eth_gasPrice error (a hard error in the fallback). -/
structure FeeNetwork where
  priorityFee : Option Nat
  blockFetch : Option (Option Nat)
  gasPrice : Option Nat

/-- Fee floor of 0.1 Gwei enforced by both fee paths. -/
def minPriorityFee : Nat := 100000000

/-- Legacy fallback `fallbackGasFees`: one gas price, floored, used as both
tip and cap. -/
def fallbackGasFees (net : FeeNetwork) : Option (Nat × Nat) :=
  match net.gasPrice with
  | none => none
  | some gp =>
    let gp2 := if gp < minPriorityFee then minPriorityFee else gp
    some (gp2, gp2)

/-- EIP-1559 fee estimation `getSuggestedGasFees`: the source first computes
cap = 2·base + tip, then, when the tip is under the floor, raises the tip and
recomputes the cap with the raised tip — written here with the recomputed
value directly. -/
def getSuggestedGasFees (net : FeeNetwork) : Option (Nat × Nat) :=
  match net.priorityFee with
  | none => fallbackGasFees net
  | some pf =>
    match net.blockFetch with
    | none => none
    | some none => fallbackGasFees net
    | some (some baseFee) =>
      if pf < minPriorityFee then some (minPriorityFee, 2 * baseFee + minPriorityFee)
      else some (pf, 2 * baseFee + pf)

/-- Result of the code inspection in `Check`. -/
inductive CodeClass where
  | safe
  | delegated (addr : List Char)
  | contract
deriving DecidableEq

/-- Strips one leading "0x" if present, as `Check` does. -/
def strip0x (s : List Char) : List Char :=
  if s.take 2 = ['0', 'x'] then s.drop 2 else s

/-- ASCII lowercasing of one character; `strings.ToLower` restricted to the
ASCII hex alphabet the inspected code strings use. -/
def asciiLower (c : Char) : Char :=
  if 65 ≤ c.toNat ∧ c.toNat ≤ 90 then Char.ofNat (c.toNat + 32) else c

/-- The 3-byte EIP-7702 delegation marker as lowercase hex. -/
def delegationMarker : List Char := ['e', 'f', '0', '1', '0', '0']

/-- Classification of a fetched code string by `Check`: empty or bare "0x" is
safe; a lowercase-hex ef0100 head is a delegation, the address being "0x" plus
the (unlowercased) remainder after the marker; anything else is contract
code. -/
def classifyCode (result : List Char) : CodeClass :=
  if result = [] ∨ result = ['0', 'x'] then .safe
  else
    let cwp := strip0x result
    if (cwp.map asciiLower).take 6 = delegationMarker then
      .delegated (['0', 'x'] ++ cwp.drop 6)
    else .contract

/-- Terminal states of the confirmation loop that return normally. -/
inductive ConfirmResult where
  | mined
  | timedOut
deriving DecidableEq

/-- The one error the confirmation loop raises: the transaction was mined with
status 0x0, reported with its hash. -/
inductive ClearError where
  | txFailed (hash : List Char)
deriving DecidableEq

/-- One pass of the receipt-polling loop body in `Clear`: `none` is a failed
RPC call or an absent receipt (keep polling), `some st` a receipt with status
string `st`; status 0x1 breaks out successfully, 0x0 returns the error naming
the hash, any other status keeps polling. -/
def waitForReceipt (hash : List Char) : List (Option (List Char)) → Except ClearError ConfirmResult
  | [] => .ok .timedOut
  | none :: rest => waitForReceipt hash rest
  | some st :: rest =>
    if st = ['0', 'x', '1'] then .ok .mined
    else if st = ['0', 'x', '0'] then .error (.txFailed hash)
    else waitForReceipt hash rest

/-- The bounded confirmation loop of `Clear`: at most 60 polls; running out of
polls returns normally (the caller is told to check manually later). -/
def clearConfirm (hash : List Char) (polls : List (Option (List Char))) :
    Except ClearError ConfirmResult :=
  waitForReceipt hash (polls.take 60)

/-- Fields of the JSON-RPC broadcast response `broadcastRawTx` reads. -/
structure BroadcastParsed where
  result : List Char
  errMessage : List Char
deriving DecidableEq

/-- Outcome of the HTTP POST in `broadcastRawTx`: a transport error, or a body
whose unmarshalling either fills the fields or fails; a failed unmarshal is
ignored by the source and leaves the zero-valued struct. -/
inductive BroadcastHttp where
  | transportErr (e : List Char)
  | response (parsed : Option BroadcastParsed)

/-- The zero value the response struct keeps when `json.Unmarshal` fails. -/
def zeroBroadcastParsed : BroadcastParsed := ⟨[], []⟩

/-- Broadcast `broadcastRawTx`: a transport error propagates; a non-empty
node error message becomes the error verbatim; otherwise the result field is
returned — including the zero value left by an ignored unmarshal failure. -/
def broadcastRawTx (resp : BroadcastHttp) : Except (List Char) (List Char) :=
  match resp with
  | .transportErr e => .error e
  | .response p =>
    let r := p.getD zeroBroadcastParsed
    if r.errMessage = [] then .ok r.result else .error r.errMessage

/-- Accumulator pass of base-16 `big.Int.SetString`. -/
def parseHexNatAux : Nat → List Char → Option Nat
  | acc, [] => some acc
  | acc, c :: rest =>
    match hexCharVal c with
    | none => none
    | some v => parseHexNatAux (16 * acc + v) rest

/-- Base-16 `big.Int.SetString`: fails on an empty string or an invalid
digit, and is arbitrary-precision. -/
def parseHexNat : List Char → Option Nat
  | [] => none
  | c :: rest => parseHexNatAux 0 (c :: rest)

/-- The `Int64()` conversion of `big.Int` as implemented: the low 64 bits in
two's complement. -/
def int64OfBig (n : Nat) : Int :=
  if n % 2 ^ 64 < 2 ^ 63 then ((n % 2 ^ 64 : Nat) : Int)
  else ((n % 2 ^ 64 : Nat) : Int) - 2 ^ 64

/-- Shared result handling of getChainID / getNonce / getGasPrice:
`result.Result[2:]` — the unchecked slice panics (modelled `none`) when the
string has fewer than two characters — then `big.Int.SetString(·, 16)`, whose
ignored failure leaves the fresh big.Int at zero. -/
def resultToBig (result : List Char) : Option Nat :=
  if result.length < 2 then none
  else some ((parseHexNat (result.drop 2)).getD 0)

/-- Value produced by `getChainID` from the RPC result string. -/
def getChainIDOfResult (result : List Char) : Option Nat := resultToBig result

/-- Value produced by `getGasPrice` from the RPC result string. -/
def getGasPriceOfResult (result : List Char) : Option Nat := resultToBig result

/-- Value produced by `getNonce` from the RPC result string: the parsed
big.Int narrowed with `Int64()`. -/
def getNonceOfResult (result : List Char) : Option Int :=
  (resultToBig result).map int64OfBig

mutual

/-- Wellformedness of an RLP value: byte values below 256, and every encoded
length below 2^64 so that each header byte is itself a byte. All values the
pipeline encodes satisfy this under the stated input bounds. -/
def GoodItem : RLPItem → Prop
  | .bytes bs => (∀ b ∈ bs, b < 256) ∧ bs.length < 2 ^ 64
  | .list its => (rlpEncodeList its).length < 2 ^ 64 ∧ GoodList its

/-- Wellformedness of every member of a list. -/
def GoodList : List RLPItem → Prop
  | [] => True
  | it :: rest => GoodItem it ∧ GoodList rest

end

/-- The authorization digest as the specification words it: Keccak-256 of the
single magic byte 0x05 followed by the RLP encoding of the ordered list
[chain_id, delegate_address, authorizer_nonce]. -/
def specAuthDigest (C : Crypto) (chainId : Nat) (addr : List Nat) (nonce : Nat) : List Nat :=
  C.keccak256 (MAGIC :: rlpEncode (.list [natRLP chainId, .bytes addr, natRLP nonce]))

/-- Payload whose keccak256 hash (after the 0x04 type byte) the relayer signs:
the RLP envelope without the outer signature fields. -/
def outerPayload (C : Crypto) (chainId userPriv relayerNonce userNonce gasTip gasFeeCap gasLimit : Nat) (contractAddr txData : List Nat) : List Nat :=
  rlpEncode (.list (envelopeItems C chainId userPriv relayerNonce userNonce gasTip gasFeeCap gasLimit contractAddr txData))

/-- The relayer's 65-byte recoverable signature over the outer digest. -/
def outerSig (C : Crypto) (chainId userPriv relayerNonce userNonce gasTip gasFeeCap gasLimit : Nat) (contractAddr txData : List Nat) (relayerPriv : Nat) : List Nat :=
  C.sign (C.keccak256 (SET_CODE_TX_TYPE :: outerPayload C chainId userPriv relayerNonce userNonce gasTip gasFeeCap gasLimit contractAddr txData)) relayerPriv

/-- Top-level fields of the broadcast payload: the ten envelope fields plus
the outer yParity, r, s appended as the last three list elements. -/
def signedTxItems (C : Crypto) (chainId userPriv relayerNonce userNonce gasTip gasFeeCap gasLimit : Nat) (contractAddr txData : List Nat) (relayerPriv : Nat) : List RLPItem :=
  envelopeItems C chainId userPriv relayerNonce userNonce gasTip gasFeeCap gasLimit contractAddr txData
    ++ [natRLP ((outerSig C chainId userPriv relayerNonce userNonce gasTip gasFeeCap gasLimit contractAddr txData relayerPriv).getD 64 0),
        natRLP (natFromBEBytes ((outerSig C chainId userPriv relayerNonce userNonce gasTip gasFeeCap gasLimit contractAddr txData relayerPriv).take 32)),
        natRLP (natFromBEBytes (((outerSig C chainId userPriv relayerNonce userNonce gasTip gasFeeCap gasLimit contractAddr txData relayerPriv).drop 32).take 32))]

/-- A concrete instantiation of the abstract primitives satisfying their
contracts, used to evaluate the pipeline at concrete inputs. -/
def dummyCrypto : Crypto :=
  ⟨fun _ => List.replicate 32 0, fun _ _ => List.replicate 65 1⟩

/-- The end-to-end scenario of the specification: authorizer nonce 5, relayer
nonce 12, chain id 1, delegate the zero address, gas limit 100000, priority
fee 100000000, fee cap 2100000000. -/
def scenarioReq (userPriv relayerPriv : Nat) : SetAuthorizationRequest :=
  ⟨userPriv, 5, relayerPriv, 12, zeroAddress, 1, 100000000, 2100000000, 100000⟩

/-! Properties of the byte-level helpers. -/

theorem natToBEBytesAux_eq : ∀ fuel n, n ≤ fuel → natToBEBytesAux fuel n = (Nat.digits 256 n).reverse := by
  intro fuel
  induction fuel with
  | zero =>
    intro n h
    interval_cases n
    simp [natToBEBytesAux]
  | succ fuel ih =>
    intro n h
    match n with
    | 0 => simp [natToBEBytesAux]
    | n + 1 =>
      have hd : (n + 1) / 256 < n + 1 := Nat.div_lt_self (Nat.succ_pos n) (by norm_num)
      have hrec : (n + 1) / 256 ≤ fuel := Nat.le_of_lt_succ (lt_of_lt_of_le hd h)
      have hstep : natToBEBytesAux (fuel + 1) (n + 1)
          = natToBEBytesAux fuel ((n + 1) / 256) ++ [(n + 1) % 256] := rfl
      rw [hstep, ih _ hrec, Nat.digits_def' (show (1:Nat) < 256 by norm_num) (Nat.succ_pos n)]
      simp

theorem natToBEBytes_eq (n : Nat) : natToBEBytes n = (Nat.digits 256 n).reverse :=
  natToBEBytesAux_eq n n le_rfl

theorem natToBEBytes_lt (n : Nat) : ∀ b ∈ natToBEBytes n, b < 256 := by
  rw [natToBEBytes_eq]
  intro b hb
  exact Nat.digits_lt_base (by norm_num) (List.mem_reverse.mp hb)

theorem natFromBEBytes_toBE (n : Nat) : natFromBEBytes (natToBEBytes n) = n := by
  simp [natFromBEBytes, natToBEBytes_eq, Nat.ofDigits_digits]

theorem natToBEBytes_zero : natToBEBytes 0 = [] := by
  simp [natToBEBytes_eq]

theorem natToBEBytes_ne_nil {n : Nat} (h : n ≠ 0) : natToBEBytes n ≠ [] := by
  simp [natToBEBytes_eq, Nat.digits_ne_nil_iff_ne_zero.mpr h]

theorem natToBEBytes_len_le {n k : Nat} (h : n < 256 ^ k) : (natToBEBytes n).length ≤ k := by
  rcases eq_or_ne n 0 with rfl | hn
  · simp [natToBEBytes_eq]
  · by_contra hlt
    push_neg at hlt
    have h1 : 256 ^ (Nat.digits 256 n).length ≤ 256 * n :=
      Nat.base_pow_length_digits_le 256 n (by norm_num) hn
    have h2 : (256 : Nat) ^ (k + 1) ≤ 256 ^ (Nat.digits 256 n).length := by
      apply Nat.pow_le_pow_right (by norm_num)
      have heq : (natToBEBytes n).length = (Nat.digits 256 n).length := by
        simp [natToBEBytes_eq]
      omega
    have h3 : 256 ^ k * 256 ≤ 256 * n := by
      calc 256 ^ k * 256 = 256 ^ (k + 1) := (pow_succ 256 k).symm
        _ ≤ 256 ^ (Nat.digits 256 n).length := h2
        _ ≤ 256 * n := h1
    have h4 : 256 ^ k ≤ n := by omega
    omega

theorem natFromBEBytes_lt {bs : List Nat} (h : ∀ b ∈ bs, b < 256) :
    natFromBEBytes bs < 256 ^ bs.length := by
  have h2 : Nat.ofDigits 256 bs.reverse < 256 ^ bs.reverse.length :=
    Nat.ofDigits_lt_base_pow_length (by norm_num) (fun x hx => h x (List.mem_reverse.mp hx))
  simpa [natFromBEBytes] using h2

/-! Properties of the hex codec. -/

theorem hexCharVal_digitChar {n : Nat} (h : n < 16) :
    hexCharVal (hexDigitChar n) = some n := by
  interval_cases n <;> rfl

theorem hexDecode_encode {bs : List Nat} (h : ∀ b ∈ bs, b < 256) :
    hexDecode (hexEncode bs) = some bs := by
  induction bs with
  | nil => rfl
  | cons b rest ih =>
    have hb : b < 256 := h b (by simp)
    have h1 : hexCharVal (hexDigitChar (b / 16)) = some (b / 16) :=
      hexCharVal_digitChar (Nat.div_lt_of_lt_mul (by omega))
    have h2 : hexCharVal (hexDigitChar (b % 16)) = some (b % 16) :=
      hexCharVal_digitChar (Nat.mod_lt b (by norm_num))
    have h3 : hexDecode (hexEncode rest) = some rest := ih (fun x hx => h x (by simp [hx]))
    have h4 : 16 * (b / 16) + b % 16 = b := by omega
    simp [hexEncode, hexDecode, h1, h2, h3, h4]

/-! Unfolding equations of the mutual RLP encoder. -/

theorem rlpEncode_bytes_def (bs : List Nat) : rlpEncode (.bytes bs) = rlpEncodeBytes bs := by
  simp [rlpEncode]

theorem rlpEncode_list_def (its : List RLPItem) :
    rlpEncode (.list its) = rlpWrapPayload (rlpEncodeList its) := by
  simp [rlpEncode]

theorem rlpEncodeList_nil : rlpEncodeList [] = [] := by
  simp [rlpEncodeList]

theorem rlpEncodeList_cons (it : RLPItem) (rest : List RLPItem) :
    rlpEncodeList (it :: rest) = rlpEncode it ++ rlpEncodeList rest := by
  simp [rlpEncodeList]

theorem rlpEncodeList_append (a b : List RLPItem) :
    rlpEncodeList (a ++ b) = rlpEncodeList a ++ rlpEncodeList b := by
  induction a with
  | nil => simp [rlpEncodeList_nil]
  | cons it rest ih => simp [rlpEncodeList_cons, ih]

theorem concatAll_map_encode (its : List RLPItem) :
    concatAll (its.map rlpEncode) = rlpEncodeList its := by
  induction its with
  | nil => simp [concatAll, rlpEncodeList_nil]
  | cons it rest ih => simp [concatAll, rlpEncodeList_cons, ih]

theorem rlpEncodeBytes_length_pos (bs : List Nat) : 1 ≤ (rlpEncodeBytes bs).length := by
  unfold rlpEncodeBytes
  split
  · next h => obtain ⟨a, rfl⟩ := List.length_eq_one.mp h.1; simp
  · split <;> simp

theorem rlpWrapPayload_length_pos (body : List Nat) : 1 ≤ (rlpWrapPayload body).length := by
  unfold rlpWrapPayload
  split <;> simp

theorem rlpEncode_length_pos (it : RLPItem) : 1 ≤ (rlpEncode it).length := by
  cases it with
  | bytes bs => rw [rlpEncode_bytes_def]; exact rlpEncodeBytes_length_pos bs
  | list its => rw [rlpEncode_list_def]; exact rlpWrapPayload_length_pos _

/-! Header parsing recovers the length of each canonical encoding. -/

theorem rlpItemLength_encodeBytes (bs rest : List Nat) (hlen : bs.length < 2 ^ 64) :
    rlpItemLength (rlpEncodeBytes bs ++ rest) = some (rlpEncodeBytes bs).length := by
  unfold rlpEncodeBytes
  by_cases h1 : bs.length = 1 ∧ bs.headD 0 < 128
  · rw [if_pos h1]
    obtain ⟨a, rfl⟩ := List.length_eq_one.mp h1.1
    have ha : a < 128 := by simpa using h1.2
    simp [rlpItemLength, ha]
  · rw [if_neg h1]
    by_cases h2 : bs.length ≤ 55
    · rw [if_pos h2]
      have hb1 : ¬ 128 + bs.length < 128 := by omega
      have hb2 : 128 + bs.length < 184 := by omega
      simp [rlpItemLength, hb1, hb2]
      omega
    · rw [if_neg h2]
      have hll1 : 1 ≤ (natToBEBytes bs.length).length := by
        have hne : natToBEBytes bs.length ≠ [] := natToBEBytes_ne_nil (by omega)
        cases hc : natToBEBytes bs.length with
        | nil => exact absurd hc hne
        | cons x xs => simp
      have hll8 : (natToBEBytes bs.length).length ≤ 8 :=
        natToBEBytes_len_le (by norm_num at hlen ⊢; omega)
      have hb1 : ¬ 183 + (natToBEBytes bs.length).length < 128 := by omega
      have hb2 : ¬ 183 + (natToBEBytes bs.length).length < 184 := by omega
      have hb3 : 183 + (natToBEBytes bs.length).length < 192 := by omega
      have harg : ((183 + (natToBEBytes bs.length).length) :: (natToBEBytes bs.length ++ bs)) ++ rest
          = (183 + (natToBEBytes bs.length).length) :: (natToBEBytes bs.length ++ (bs ++ rest)) := by
        simp
      rw [harg]
      have hsub : 183 + (natToBEBytes bs.length).length - 183 = (natToBEBytes bs.length).length := by
        omega
      have hrlen : ¬ (natToBEBytes bs.length ++ (bs ++ rest)).length < (natToBEBytes bs.length).length := by
        simp
      have htake : (natToBEBytes bs.length ++ (bs ++ rest)).take (natToBEBytes bs.length).length
          = natToBEBytes bs.length := List.take_left _ _
      simp [rlpItemLength, hb1, hb2, hb3, hsub, hrlen, htake, natFromBEBytes_toBE]
      omega

theorem rlpItemLength_wrap (body rest : List Nat) (hlen : body.length < 2 ^ 64) :
    rlpItemLength (rlpWrapPayload body ++ rest) = some (rlpWrapPayload body).length := by
  unfold rlpWrapPayload
  by_cases h2 : body.length ≤ 55
  · rw [if_pos h2]
    have hb1 : ¬ 192 + body.length < 128 := by omega
    have hb2 : ¬ 192 + body.length < 184 := by omega
    have hb3 : ¬ 192 + body.length < 192 := by omega
    have hb4 : 192 + body.length < 248 := by omega
    simp [rlpItemLength, hb1, hb2, hb3, hb4]
    omega
  · rw [if_neg h2]
    have hll1 : 1 ≤ (natToBEBytes body.length).length := by
      have hne : natToBEBytes body.length ≠ [] := natToBEBytes_ne_nil (by omega)
      cases hc : natToBEBytes body.length with
      | nil => exact absurd hc hne
      | cons x xs => simp
    have hll8 : (natToBEBytes body.length).length ≤ 8 :=
      natToBEBytes_len_le (by norm_num at hlen ⊢; omega)
    have hb1 : ¬ 247 + (natToBEBytes body.length).length < 128 := by omega
    have hb2 : ¬ 247 + (natToBEBytes body.length).length < 184 := by omega
    have hb3 : ¬ 247 + (natToBEBytes body.length).length < 192 := by omega
    have hb4 : ¬ 247 + (natToBEBytes body.length).length < 248 := by omega
    have harg : ((247 + (natToBEBytes body.length).length) :: (natToBEBytes body.length ++ body)) ++ rest
        = (247 + (natToBEBytes body.length).length) :: (natToBEBytes body.length ++ (body ++ rest)) := by
      simp
    rw [harg]
    have hsub : 247 + (natToBEBytes body.length).length - 247 = (natToBEBytes body.length).length := by
      omega
    have hrlen : ¬ (natToBEBytes body.length ++ (body ++ rest)).length < (natToBEBytes body.length).length := by
      simp
    have htake : (natToBEBytes body.length ++ (body ++ rest)).take (natToBEBytes body.length).length
        = natToBEBytes body.length := List.take_left _ _
    simp [rlpItemLength, hb1, hb2, hb3, hb4, hsub, hrlen, htake, natFromBEBytes_toBE]
    omega

/-! Unfolding equations of the wellformedness predicates. -/

theorem goodItem_bytes_iff (bs : List Nat) :
    GoodItem (.bytes bs) ↔ (∀ b ∈ bs, b < 256) ∧ bs.length < 2 ^ 64 := by
  simp [GoodItem]

theorem goodItem_list_iff (its : List RLPItem) :
    GoodItem (.list its) ↔ (rlpEncodeList its).length < 2 ^ 64 ∧ GoodList its := by
  simp [GoodItem]

theorem goodList_nil : GoodList ([] : List RLPItem) := by
  simp [GoodList]

theorem goodList_cons_iff (it : RLPItem) (rest : List RLPItem) :
    GoodList (it :: rest) ↔ GoodItem it ∧ GoodList rest := by
  simp [GoodList]

theorem rlpItemLength_encode {it : RLPItem} (hg : GoodItem it) (rest : List Nat) :
    rlpItemLength (rlpEncode it ++ rest) = some (rlpEncode it).length := by
  cases it with
  | bytes bs =>
    rw [rlpEncode_bytes_def]
    exact rlpItemLength_encodeBytes bs rest ((goodItem_bytes_iff bs).mp hg).2
  | list its =>
    rw [rlpEncode_list_def]
    exact rlpItemLength_wrap _ rest ((goodItem_list_iff its).mp hg).1

/-! The splitter undoes the encoder on canonical input. -/

theorem rlpSplitItemsAux_encodeList (its : List RLPItem) :
    ∀ fuel, GoodList its → (rlpEncodeList its).length ≤ fuel →
      rlpSplitItemsAux fuel (rlpEncodeList its) = some (its.map rlpEncode) := by
  induction its with
  | nil =>
    intro fuel _ _
    rw [rlpEncodeList_nil]
    cases fuel <;> simp [rlpSplitItemsAux]
  | cons it rest ih =>
    intro fuel hg hfuel
    obtain ⟨hgit, hgrest⟩ := (goodList_cons_iff it rest).mp hg
    have hpos := rlpEncode_length_pos it
    rw [rlpEncodeList_cons] at hfuel ⊢
    cases fuel with
    | zero =>
      exfalso
      have h0 : (rlpEncode it).length + (rlpEncodeList rest).length ≤ 0 := by
        rw [← List.length_append]
        exact hfuel
      omega
    | succ fuel =>
      obtain ⟨c, cs, hc⟩ : ∃ c cs, rlpEncode it = c :: cs := by
        cases he : rlpEncode it with
        | nil => rw [he] at hpos; simp at hpos
        | cons c cs => exact ⟨c, cs, rfl⟩
      have hlen : rlpItemLength (c :: (cs ++ rlpEncodeList rest)) = some (c :: cs).length := by
        have h0 := rlpItemLength_encode hgit (rlpEncodeList rest)
        rw [hc] at h0
        simpa using h0
      have htake : (c :: (cs ++ rlpEncodeList rest)).take (c :: cs).length = c :: cs :=
        List.take_left (c :: cs) (rlpEncodeList rest)
      have hdrop : (c :: (cs ++ rlpEncodeList rest)).drop (c :: cs).length = rlpEncodeList rest :=
        List.drop_left (c :: cs) (rlpEncodeList rest)
      have hrec : rlpSplitItemsAux fuel (rlpEncodeList rest) = some (rest.map rlpEncode) := by
        apply ih fuel hgrest
        have hl : (rlpEncode it).length + (rlpEncodeList rest).length ≤ fuel + 1 := by
          simpa [List.length_append] using hfuel
        omega
      rw [hc]
      show rlpSplitItemsAux (fuel + 1) (c :: (cs ++ rlpEncodeList rest)) = _
      simp only [rlpSplitItemsAux]
      rw [hlen]
      simp only [htake, hdrop, hrec]
      simp [hc]

theorem rlpSplitItems_encodeList {its : List RLPItem} (h : GoodList its) :
    rlpSplitItems (rlpEncodeList its) = some (its.map rlpEncode) :=
  rlpSplitItemsAux_encodeList its _ h le_rfl

theorem rlpSplitTop_encode {its : List RLPItem} (h : GoodList its)
    (hlen : (rlpEncodeList its).length < 2 ^ 64) :
    rlpSplitTop (rlpEncode (.list its)) = some (its.map rlpEncode) := by
  rw [rlpEncode_list_def]
  unfold rlpWrapPayload
  by_cases h2 : (rlpEncodeList its).length ≤ 55
  · rw [if_pos h2]
    have hb1 : ¬ 192 + (rlpEncodeList its).length < 192 := by omega
    have hb2 : 192 + (rlpEncodeList its).length < 248 := by omega
    have hb3 : 192 + (rlpEncodeList its).length - 192 = (rlpEncodeList its).length := by omega
    simp [rlpSplitTop, hb1, hb2, hb3, rlpSplitItems_encodeList h]
  · rw [if_neg h2]
    have hll1 : 1 ≤ (natToBEBytes (rlpEncodeList its).length).length := by
      have hne : natToBEBytes (rlpEncodeList its).length ≠ [] := natToBEBytes_ne_nil (by omega)
      cases hc : natToBEBytes (rlpEncodeList its).length with
      | nil => exact absurd hc hne
      | cons x xs => simp
    have hb1 : ¬ 247 + (natToBEBytes (rlpEncodeList its).length).length < 192 := by omega
    have hb2 : ¬ 247 + (natToBEBytes (rlpEncodeList its).length).length < 248 := by omega
    have hsub : 247 + (natToBEBytes (rlpEncodeList its).length).length - 247
        = (natToBEBytes (rlpEncodeList its).length).length := by omega
    have hrlen : ¬ (natToBEBytes (rlpEncodeList its).length ++ rlpEncodeList its).length
        < (natToBEBytes (rlpEncodeList its).length).length := by simp
    have htake : (natToBEBytes (rlpEncodeList its).length ++ rlpEncodeList its).take
        (natToBEBytes (rlpEncodeList its).length).length
        = natToBEBytes (rlpEncodeList its).length := List.take_left _ _
    have hdrop : (natToBEBytes (rlpEncodeList its).length ++ rlpEncodeList its).drop
        (natToBEBytes (rlpEncodeList its).length).length
        = rlpEncodeList its := List.drop_left _ _
    simp [rlpSplitTop, hb1, hb2, hsub, hrlen, htake, hdrop, natFromBEBytes_toBE,
      rlpSplitItems_encodeList h]

/-! Every byte of a canonical encoding is a byte value. -/

theorem rlpEncodeBytes_wf {bs : List Nat} (h1 : ∀ b ∈ bs, b < 256) (h2 : bs.length < 2 ^ 64) :
    ∀ b ∈ rlpEncodeBytes bs, b < 256 := by
  unfold rlpEncodeBytes
  by_cases hc1 : bs.length = 1 ∧ bs.headD 0 < 128
  · rw [if_pos hc1]; exact h1
  · rw [if_neg hc1]
    by_cases hc2 : bs.length ≤ 55
    · rw [if_pos hc2]
      intro b hb
      rcases List.mem_cons.mp hb with rfl | hb2
      · omega
      · exact h1 b hb2
    · rw [if_neg hc2]
      have hll8 : (natToBEBytes bs.length).length ≤ 8 := by
        apply natToBEBytes_len_le
        norm_num at h2 ⊢
        omega
      intro b hb
      rcases List.mem_cons.mp hb with rfl | hb2
      · omega
      · rcases List.mem_append.mp hb2 with hb3 | hb3
        · exact natToBEBytes_lt _ b hb3
        · exact h1 b hb3

theorem rlpWrapPayload_wf {body : List Nat} (h1 : ∀ b ∈ body, b < 256) (h2 : body.length < 2 ^ 64) :
    ∀ b ∈ rlpWrapPayload body, b < 256 := by
  unfold rlpWrapPayload
  by_cases hc2 : body.length ≤ 55
  · rw [if_pos hc2]
    intro b hb
    rcases List.mem_cons.mp hb with rfl | hb2
    · omega
    · exact h1 b hb2
  · rw [if_neg hc2]
    have hll8 : (natToBEBytes body.length).length ≤ 8 := by
      apply natToBEBytes_len_le
      norm_num at h2 ⊢
      omega
    intro b hb
    rcases List.mem_cons.mp hb with rfl | hb2
    · omega
    · rcases List.mem_append.mp hb2 with hb3 | hb3
      · exact natToBEBytes_lt _ b hb3
      · exact h1 b hb3

mutual

theorem rlpEncode_wf : ∀ it : RLPItem, GoodItem it → ∀ b ∈ rlpEncode it, b < 256
  | .bytes bs, hg => by
    rw [rlpEncode_bytes_def]
    exact rlpEncodeBytes_wf ((goodItem_bytes_iff bs).mp hg).1 ((goodItem_bytes_iff bs).mp hg).2
  | .list its, hg => by
    rw [rlpEncode_list_def]
    exact rlpWrapPayload_wf (rlpEncodeList_wf its ((goodItem_list_iff its).mp hg).2)
      ((goodItem_list_iff its).mp hg).1

theorem rlpEncodeList_wf : ∀ its : List RLPItem, GoodList its → ∀ b ∈ rlpEncodeList its, b < 256
  | [], _ => by
    rw [rlpEncodeList_nil]
    intro b hb
    simp at hb
  | it :: rest, hg => by
    rw [rlpEncodeList_cons]
    intro b hb
    obtain ⟨hgit, hgrest⟩ := (goodList_cons_iff it rest).mp hg
    rcases List.mem_append.mp hb with hb2 | hb2
    · exact rlpEncode_wf it hgit b hb2
    · exact rlpEncodeList_wf rest hgrest b hb2

end

/-! Length bounds of canonical encodings. -/

theorem rlpEncodeBytes_length_le {bs : List Nat} (h : bs.length ≤ 55) :
    (rlpEncodeBytes bs).length ≤ bs.length + 1 := by
  unfold rlpEncodeBytes
  by_cases hc1 : bs.length = 1 ∧ bs.headD 0 < 128
  · rw [if_pos hc1]; omega
  · rw [if_neg hc1, if_pos h]; simp

theorem rlpWrapPayload_length_le {body : List Nat} (h : body.length < 2 ^ 64) :
    (rlpWrapPayload body).length ≤ body.length + 9 := by
  unfold rlpWrapPayload
  by_cases h2 : body.length ≤ 55
  · rw [if_pos h2]; simp
  · rw [if_neg h2]
    have hll8 : (natToBEBytes body.length).length ≤ 8 := by
      apply natToBEBytes_len_le
      norm_num at h ⊢
      omega
    simp [List.length_append]
    omega

theorem natRLP_length_le {n : Nat} (h : n < 2 ^ 256) :
    (rlpEncode (natRLP n)).length ≤ 33 := by
  have hlen : (natToBEBytes n).length ≤ 32 := by
    apply natToBEBytes_len_le
    norm_num at h ⊢
    omega
  have h2 := rlpEncodeBytes_length_le (show (natToBEBytes n).length ≤ 55 by omega)
  rw [show natRLP n = RLPItem.bytes (natToBEBytes n) from rfl, rlpEncode_bytes_def]
  omega

theorem goodItem_natRLP {n : Nat} (h : n < 2 ^ 256) : GoodItem (natRLP n) := by
  have hlen : (natToBEBytes n).length ≤ 32 := by
    apply natToBEBytes_len_le
    norm_num at h ⊢
    omega
  exact (goodItem_bytes_iff _).mpr ⟨natToBEBytes_lt n, by omega⟩

theorem rlpEncodeBytes_length_le9 {bs : List Nat} (h : bs.length < 2 ^ 64) :
    (rlpEncodeBytes bs).length ≤ bs.length + 9 := by
  unfold rlpEncodeBytes
  by_cases hc1 : bs.length = 1 ∧ bs.headD 0 < 128
  · rw [if_pos hc1]; omega
  · rw [if_neg hc1]
    by_cases hc2 : bs.length ≤ 55
    · rw [if_pos hc2]; simp
    · rw [if_neg hc2]
      have hll8 : (natToBEBytes bs.length).length ≤ 8 := by
        apply natToBEBytes_len_le
        norm_num at h ⊢
        omega
      simp [List.length_append]
      omega

theorem rlpWrapPayload_length_eq {body : List Nat} (h : body.length ≤ 55) :
    (rlpWrapPayload body).length = body.length + 1 := by
  unfold rlpWrapPayload
  rw [if_pos h]
  simp

theorem goodList_append {a b : List RLPItem} (ha : GoodList a) (hb : GoodList b) :
    GoodList (a ++ b) := by
  induction a with
  | nil => simpa using hb
  | cons it rest ih =>
    obtain ⟨h1, h2⟩ := (goodList_cons_iff it rest).mp ha
    exact (goodList_cons_iff it _).mpr ⟨h1, ih h2⟩

/-! Bounds on the signature-derived values under the crypto contracts. -/

theorem sig_getD_lt {C : Crypto} (hS : SignOk C) (d : List Nat) (k : Nat) : (C.sign d k).getD 64 0 < 256 := by
  obtain ⟨hlen, hmem⟩ := hS d k
  have h64 : 64 < (C.sign d k).length := by omega
  rw [List.getD_eq_getElem _ _ h64]
  exact hmem _ (List.getElem_mem h64)

theorem sigR_lt {C : Crypto} (hS : SignOk C) (d : List Nat) (k : Nat) :
    natFromBEBytes ((C.sign d k).take 32) < 2 ^ 256 := by
  obtain ⟨hlen, hmem⟩ := hS d k
  have h1 : ∀ b ∈ (C.sign d k).take 32, b < 256 := fun b hb => hmem b (List.mem_of_mem_take hb)
  have h2 := natFromBEBytes_lt h1
  have h3 : ((C.sign d k).take 32).length ≤ 32 := by
    rw [List.length_take]
    omega
  calc natFromBEBytes ((C.sign d k).take 32) < 256 ^ ((C.sign d k).take 32).length := h2
    _ ≤ 256 ^ 32 := Nat.pow_le_pow_right (by norm_num) h3
    _ = 2 ^ 256 := by norm_num

theorem sigS_lt {C : Crypto} (hS : SignOk C) (d : List Nat) (k : Nat) :
    natFromBEBytes (((C.sign d k).drop 32).take 32) < 2 ^ 256 := by
  obtain ⟨hlen, hmem⟩ := hS d k
  have h1 : ∀ b ∈ ((C.sign d k).drop 32).take 32, b < 256 := fun b hb =>
    hmem b (List.mem_of_mem_drop (List.mem_of_mem_take hb))
  have h2 := natFromBEBytes_lt h1
  have h3 : (((C.sign d k).drop 32).take 32).length ≤ 32 := by
    rw [List.length_take]
    omega
  calc natFromBEBytes (((C.sign d k).drop 32).take 32)
      < 256 ^ (((C.sign d k).drop 32).take 32).length := h2
    _ ≤ 256 ^ 32 := Nat.pow_le_pow_right (by norm_num) h3
    _ = 2 ^ 256 := by norm_num

/-! Wellformedness and size of the concrete envelopes the pipeline builds. -/

theorem goodList_authSigItems {C : Crypto} (hS : SignOk C) {chainId userNonce : Nat}
    {addr : List Nat} (userPriv : Nat) (hcid : chainId < 2 ^ 256) (huN : userNonce < 2 ^ 64)
    (haddrW : ∀ b ∈ addr, b < 256) (haddrL : addr.length = 20) :
    GoodList (authSigItems C chainId addr userNonce userPriv) := by
  unfold authSigItems
  simp only [goodList_cons_iff]
  refine ⟨goodItem_natRLP hcid, ?_, ?_, ?_, ?_, ?_, goodList_nil⟩
  · exact (goodItem_bytes_iff _).mpr ⟨haddrW, by rw [haddrL]; norm_num⟩
  · exact goodItem_natRLP (lt_trans huN (by norm_num))
  · exact goodItem_natRLP
      (lt_trans (sig_getD_lt hS (authTupleMessage C chainId addr userNonce) userPriv) (by norm_num))
  · exact goodItem_natRLP (sigR_lt hS (authTupleMessage C chainId addr userNonce) userPriv)
  · exact goodItem_natRLP (sigS_lt hS (authTupleMessage C chainId addr userNonce) userPriv)

theorem encList_authSigItems_le {C : Crypto} (hS : SignOk C) {chainId userNonce : Nat}
    {addr : List Nat} (userPriv : Nat) (hcid : chainId < 2 ^ 256) (huN : userNonce < 2 ^ 64)
    (haddrL : addr.length = 20) :
    (rlpEncodeList (authSigItems C chainId addr userNonce userPriv)).length ≤ 200 := by
  have h1 := natRLP_length_le hcid
  have h2 := natRLP_length_le (lt_trans huN (show (2:Nat) ^ 64 < 2 ^ 256 by norm_num))
  have h3 : (rlpEncode (.bytes addr)).length ≤ 21 := by
    rw [rlpEncode_bytes_def]
    have h0 := rlpEncodeBytes_length_le (show addr.length ≤ 55 by omega)
    omega
  have h4 := natRLP_length_le
    (lt_trans (sig_getD_lt hS (authTupleMessage C chainId addr userNonce) userPriv)
      (show (256:Nat) < 2 ^ 256 by norm_num))
  have h5 := natRLP_length_le (sigR_lt hS (authTupleMessage C chainId addr userNonce) userPriv)
  have h6 := natRLP_length_le (sigS_lt hS (authTupleMessage C chainId addr userNonce) userPriv)
  simp only [authSigItems, rlpEncodeList_cons, rlpEncodeList_nil, List.length_append,
    List.length_nil]
  omega

theorem envelope_good {C : Crypto} (hS : SignOk C)
    {chainId relayerNonce userNonce gasTip gasFeeCap gasLimit : Nat}
    {contractAddr txData : List Nat} (userPriv : Nat)
    (haddrW : ∀ b ∈ contractAddr, b < 256) (haddrL : contractAddr.length = 20)
    (hdataW : ∀ b ∈ txData, b < 256) (hdataL : txData.length < 2 ^ 32)
    (hcid : chainId < 2 ^ 256) (htip : gasTip < 2 ^ 256) (hcap : gasFeeCap < 2 ^ 256)
    (hrN : relayerNonce < 2 ^ 64) (huN : userNonce < 2 ^ 64) (hgl : gasLimit < 2 ^ 64) :
    GoodList (envelopeItems C chainId userPriv relayerNonce userNonce gasTip gasFeeCap gasLimit contractAddr txData)
    ∧ (rlpEncodeList (envelopeItems C chainId userPriv relayerNonce userNonce gasTip gasFeeCap gasLimit contractAddr txData)).length ≤ txData.length + 500 := by
  have hauth : GoodList (authSigItems C chainId contractAddr userNonce userPriv) :=
    goodList_authSigItems hS userPriv hcid huN haddrW haddrL
  have hauthlen : (rlpEncodeList (authSigItems C chainId contractAddr userNonce userPriv)).length ≤ 200 :=
    encList_authSigItems_le hS userPriv hcid huN haddrL
  have hgauth : GoodItem (.list (authSigItems C chainId contractAddr userNonce userPriv)) :=
    (goodItem_list_iff _).mpr ⟨lt_of_le_of_lt hauthlen (by norm_num), hauth⟩
  have hencauth : (rlpEncode (.list (authSigItems C chainId contractAddr userNonce userPriv))).length ≤ 209 := by
    rw [rlpEncode_list_def]
    have h0 := rlpWrapPayload_length_le
      (lt_of_le_of_lt hauthlen (show (200:Nat) < 2 ^ 64 by norm_num))
    omega
  have hencauthlist : (rlpEncodeList [RLPItem.list (authSigItems C chainId contractAddr userNonce userPriv)]).length ≤ 209 := by
    rw [rlpEncodeList_cons, rlpEncodeList_nil]
    simpa using hencauth
  have hgauthlist : GoodItem (.list [RLPItem.list (authSigItems C chainId contractAddr userNonce userPriv)]) := by
    refine (goodItem_list_iff _).mpr ⟨lt_of_le_of_lt hencauthlist (by norm_num), ?_⟩
    exact (goodList_cons_iff _ _).mpr ⟨hgauth, goodList_nil⟩
  have hencauthwrap : (rlpEncode (.list [RLPItem.list (authSigItems C chainId contractAddr userNonce userPriv)])).length ≤ 218 := by
    rw [rlpEncode_list_def]
    have h0 := rlpWrapPayload_length_le
      (lt_of_le_of_lt hencauthlist (show (209:Nat) < 2 ^ 64 by norm_num))
    omega
  constructor
  · unfold envelopeItems
    simp only [goodList_cons_iff]
    refine ⟨goodItem_natRLP hcid, goodItem_natRLP (lt_trans hrN (by norm_num)),
      goodItem_natRLP htip, goodItem_natRLP hcap,
      goodItem_natRLP (lt_trans hgl (by norm_num)),
      (goodItem_bytes_iff _).mpr ⟨haddrW, by rw [haddrL]; norm_num⟩,
      goodItem_natRLP (by norm_num),
      (goodItem_bytes_iff _).mpr ⟨hdataW, lt_trans hdataL (by norm_num)⟩,
      (goodItem_list_iff _).mpr ⟨by rw [rlpEncodeList_nil]; norm_num, goodList_nil⟩,
      hgauthlist, goodList_nil⟩
  · have h1 := natRLP_length_le hcid
    have h2 := natRLP_length_le (lt_trans hrN (show (2:Nat) ^ 64 < 2 ^ 256 by norm_num))
    have h3 := natRLP_length_le htip
    have h4 := natRLP_length_le hcap
    have h5 := natRLP_length_le (lt_trans hgl (show (2:Nat) ^ 64 < 2 ^ 256 by norm_num))
    have h6 : (rlpEncode (.bytes contractAddr)).length ≤ 21 := by
      rw [rlpEncode_bytes_def]
      have h0 := rlpEncodeBytes_length_le (show contractAddr.length ≤ 55 by omega)
      omega
    have h7 := natRLP_length_le (show (0:Nat) < 2 ^ 256 by norm_num)
    have h8 : (rlpEncode (.bytes txData)).length ≤ txData.length + 9 := by
      rw [rlpEncode_bytes_def]
      exact rlpEncodeBytes_length_le9 (lt_trans hdataL (by norm_num))
    have h9 : (rlpEncode (RLPItem.list [])).length = 1 := by
      rw [rlpEncode_list_def, rlpEncodeList_nil]
      simpa using rlpWrapPayload_length_eq (show ([] : List Nat).length ≤ 55 by simp)
    unfold envelopeItems
    simp only [rlpEncodeList_cons, rlpEncodeList_nil, List.length_append, List.length_nil]
    omega

/-- Central pipeline lemma: the outer signing step applied to the built
transaction hex-decodes it, hashes 0x04 ‖ payload, signs with the relayer key
and appends the three outer signature fields, yielding exactly the canonical
encoding of the thirteen-element signed list. -/
theorem signEIP7702Tx_build {C : Crypto} (hS : SignOk C)
    (chainId userPriv relayerNonce userNonce gasTip gasFeeCap gasLimit relayerPriv : Nat)
    (contractAddr txData : List Nat)
    (haddrW : ∀ b ∈ contractAddr, b < 256) (haddrL : contractAddr.length = 20)
    (hdataW : ∀ b ∈ txData, b < 256) (hdataL : txData.length < 2 ^ 32)
    (hcid : chainId < 2 ^ 256) (htip : gasTip < 2 ^ 256) (hcap : gasFeeCap < 2 ^ 256)
    (hrN : relayerNonce < 2 ^ 64) (huN : userNonce < 2 ^ 64) (hgl : gasLimit < 2 ^ 64) :
    signEIP7702Tx C (build7702Tx C chainId userPriv relayerNonce userNonce gasTip gasFeeCap gasLimit contractAddr txData) relayerPriv
      = some (hexEncode (SET_CODE_TX_TYPE ::
          rlpEncode (.list (signedTxItems C chainId userPriv relayerNonce userNonce gasTip gasFeeCap gasLimit contractAddr txData relayerPriv)))) := by
  obtain ⟨hgood, hlen0⟩ :=
    envelope_good hS userPriv haddrW haddrL hdataW hdataL hcid htip hcap hrN huN hgl
  have hlen : (rlpEncodeList (envelopeItems C chainId userPriv relayerNonce userNonce gasTip gasFeeCap gasLimit contractAddr txData)).length < 2 ^ 64 := by
    have h0 : txData.length + 500 < 2 ^ 64 := by
      have h1 : (2:Nat) ^ 32 + 500 < 2 ^ 64 := by norm_num
      omega
    omega
  have hgi : GoodItem (.list (envelopeItems C chainId userPriv relayerNonce userNonce gasTip gasFeeCap gasLimit contractAddr txData)) :=
    (goodItem_list_iff _).mpr ⟨hlen, hgood⟩
  have hwf : ∀ b ∈ (SET_CODE_TX_TYPE :: rlpEncode (.list (envelopeItems C chainId userPriv relayerNonce userNonce gasTip gasFeeCap gasLimit contractAddr txData))), b < 256 := by
    intro b hb
    rcases List.mem_cons.mp hb with rfl | hb2
    · norm_num [SET_CODE_TX_TYPE]
    · exact rlpEncode_wf _ hgi b hb2
  unfold build7702Tx signEIP7702Tx
  rw [hexDecode_encode hwf]
  simp only [rlpSplitTop_encode hgood hlen]
  simp [signedTxItems, outerSig, outerPayload, concatAll_map_encode, rlpEncodeList_append,
    rlpEncodeList_cons, rlpEncodeList_nil, rlpEncode_list_def, rlpEncode_bytes_def, natRLP,
    List.append_assoc]

/-- The concrete primitives satisfy the `crypto.Sign` contract. -/
theorem dummyCrypto_signOk : SignOk dummyCrypto := by
  intro d k
  constructor
  · simp [dummyCrypto]
  · intro b hb
    simp [dummyCrypto] at hb
    omega

/-- The concrete primitives satisfy the `crypto.Keccak256` contract. -/
theorem dummyCrypto_keccakOk : KeccakOk dummyCrypto := by
  intro bs
  constructor
  · simp [dummyCrypto]
  · intro b hb
    simp [dummyCrypto] at hb
    omega

/-- The three appended signature fields are wellformed and small, for any
digest and key. -/
theorem sigItems_good {C : Crypto} (hS : SignOk C) (d : List Nat) (k : Nat) :
    GoodList [natRLP ((C.sign d k).getD 64 0),
      natRLP (natFromBEBytes ((C.sign d k).take 32)),
      natRLP (natFromBEBytes (((C.sign d k).drop 32).take 32))]
    ∧ (rlpEncodeList [natRLP ((C.sign d k).getD 64 0),
      natRLP (natFromBEBytes ((C.sign d k).take 32)),
      natRLP (natFromBEBytes (((C.sign d k).drop 32).take 32))]).length ≤ 99 := by
  constructor
  · simp only [goodList_cons_iff]
    exact ⟨goodItem_natRLP (lt_trans (sig_getD_lt hS d k) (by norm_num)),
      goodItem_natRLP (sigR_lt hS d k), goodItem_natRLP (sigS_lt hS d k), goodList_nil⟩
  · have h1 := natRLP_length_le (lt_trans (sig_getD_lt hS d k) (show (256:Nat) < 2 ^ 256 by norm_num))
    have h2 := natRLP_length_le (sigR_lt hS d k)
    have h3 := natRLP_length_le (sigS_lt hS d k)
    simp only [rlpEncodeList_cons, rlpEncodeList_nil, List.length_append, List.length_nil]
    omega

/-- The thirteen-element signed list is wellformed and its encoding fits in a
long-form header. -/
theorem signedTx_good {C : Crypto} (hS : SignOk C)
    {chainId relayerNonce userNonce gasTip gasFeeCap gasLimit : Nat}
    {contractAddr txData : List Nat} (userPriv relayerPriv : Nat)
    (haddrW : ∀ b ∈ contractAddr, b < 256) (haddrL : contractAddr.length = 20)
    (hdataW : ∀ b ∈ txData, b < 256) (hdataL : txData.length < 2 ^ 32)
    (hcid : chainId < 2 ^ 256) (htip : gasTip < 2 ^ 256) (hcap : gasFeeCap < 2 ^ 256)
    (hrN : relayerNonce < 2 ^ 64) (huN : userNonce < 2 ^ 64) (hgl : gasLimit < 2 ^ 64) :
    GoodList (signedTxItems C chainId userPriv relayerNonce userNonce gasTip gasFeeCap gasLimit contractAddr txData relayerPriv)
    ∧ (rlpEncodeList (signedTxItems C chainId userPriv relayerNonce userNonce gasTip gasFeeCap gasLimit contractAddr txData relayerPriv)).length < 2 ^ 64 := by
  obtain ⟨hgood, hlen0⟩ :=
    envelope_good hS userPriv haddrW haddrL hdataW hdataL hcid htip hcap hrN huN hgl
  obtain ⟨hgtail, hltail⟩ := sigItems_good hS
    (C.keccak256 (SET_CODE_TX_TYPE :: outerPayload C chainId userPriv relayerNonce userNonce gasTip gasFeeCap gasLimit contractAddr txData)) relayerPriv
  constructor
  · simp only [signedTxItems, outerSig]
    exact goodList_append hgood hgtail
  · simp only [signedTxItems, outerSig, rlpEncodeList_append, List.length_append]
    have h0 : txData.length + 500 + 99 < 2 ^ 64 := by
      have h1 : (2:Nat) ^ 32 + 599 < 2 ^ 64 := by norm_num
      omega
    omega

/-! Theorems settling the claims. -/

/-- C1: for every chain id, 20-byte delegate address and authorizer nonce,
the authorization digest is exactly Keccak-256 of the single magic byte 0x05
followed by the RLP encoding of the ordered list
[chain_id, delegate_address, authorizer_nonce] — the spec-worded
`specAuthDigest`; under the Keccak-256 contract it is a 32-byte value, and
being a pure function of its inputs it is deterministic; at chain id 1, the
zero address and nonce 5 the hashed preimage is the concrete reference
vector 0x05 ‖ 0xd7 ‖ 0x01 ‖ 0x94 ‖ 0²⁰ ‖ 0x05. -/
theorem c1_auth_digest {C : Crypto} (hK : KeccakOk C) (chainId nonce : Nat) (addr : List Nat)
    (_haddrL : addr.length = 20) :
    authTupleMessage C chainId addr nonce = specAuthDigest C chainId addr nonce
    ∧ (authTupleMessage C chainId addr nonce).length = 32
    ∧ authTupleMessage C 1 zeroAddress 5
        = C.keccak256 (0x05 :: 0xd7 :: 0x01 :: 0x94 :: (List.replicate 20 0 ++ [0x05])) := by
  refine ⟨rfl, (hK _).1, ?_⟩
  have hpre : MAGIC :: rlpEncode (.list [natRLP 1, .bytes zeroAddress, natRLP 5])
      = 0x05 :: 0xd7 :: 0x01 :: 0x94 :: (List.replicate 20 0 ++ [0x05]) := by decide
  rw [authTupleMessage, hpre]

theorem c1_auth_digest_witness :
    KeccakOk dummyCrypto ∧ zeroAddress.length = 20
    ∧ (authTupleMessage dummyCrypto 1 zeroAddress 5 = specAuthDigest dummyCrypto 1 zeroAddress 5
       ∧ (authTupleMessage dummyCrypto 1 zeroAddress 5).length = 32
       ∧ authTupleMessage dummyCrypto 1 zeroAddress 5
           = dummyCrypto.keccak256 (0x05 :: 0xd7 :: 0x01 :: 0x94 :: (List.replicate 20 0 ++ [0x05]))) :=
  ⟨dummyCrypto_keccakOk, by decide,
    c1_auth_digest dummyCrypto_keccakOk 1 5 zeroAddress (by decide)⟩

/-- C2: the outer signature signs, with the relayer key, the Keccak-256 hash
of the 0x04 type byte followed by the RLP encoding of the envelope that
already embeds the signed authorization tuple (`envelopeItems`, whose last
element carries `authSigItems` in the order
[chain_id, delegate, nonce, recovery_id, r, s]) and excludes the outer
signature fields; the signature is 65 bytes under the library contract, and
its raw parity byte sig[64] is appended as-is (not normalized), together with
r = sig[:32] and s = sig[32:64] as the last three list elements. -/
theorem c2_outer_signature {C : Crypto} (hS : SignOk C)
    (chainId userPriv relayerNonce userNonce gasTip gasFeeCap gasLimit relayerPriv : Nat)
    (contractAddr txData : List Nat)
    (haddrW : ∀ b ∈ contractAddr, b < 256) (haddrL : contractAddr.length = 20)
    (hdataW : ∀ b ∈ txData, b < 256) (hdataL : txData.length < 2 ^ 32)
    (hcid : chainId < 2 ^ 256) (htip : gasTip < 2 ^ 256) (hcap : gasFeeCap < 2 ^ 256)
    (hrN : relayerNonce < 2 ^ 64) (huN : userNonce < 2 ^ 64) (hgl : gasLimit < 2 ^ 64) :
    signEIP7702Tx C (build7702Tx C chainId userPriv relayerNonce userNonce gasTip gasFeeCap gasLimit contractAddr txData) relayerPriv
      = some (hexEncode (SET_CODE_TX_TYPE :: rlpEncode (.list (
          envelopeItems C chainId userPriv relayerNonce userNonce gasTip gasFeeCap gasLimit contractAddr txData
          ++ [natRLP ((C.sign (C.keccak256 (SET_CODE_TX_TYPE :: rlpEncode (.list (envelopeItems C chainId userPriv relayerNonce userNonce gasTip gasFeeCap gasLimit contractAddr txData)))) relayerPriv).getD 64 0),
              natRLP (natFromBEBytes ((C.sign (C.keccak256 (SET_CODE_TX_TYPE :: rlpEncode (.list (envelopeItems C chainId userPriv relayerNonce userNonce gasTip gasFeeCap gasLimit contractAddr txData)))) relayerPriv).take 32)),
              natRLP (natFromBEBytes (((C.sign (C.keccak256 (SET_CODE_TX_TYPE :: rlpEncode (.list (envelopeItems C chainId userPriv relayerNonce userNonce gasTip gasFeeCap gasLimit contractAddr txData)))) relayerPriv).drop 32).take 32))]))))
    ∧ (C.sign (C.keccak256 (SET_CODE_TX_TYPE :: rlpEncode (.list (envelopeItems C chainId userPriv relayerNonce userNonce gasTip gasFeeCap gasLimit contractAddr txData)))) relayerPriv).length = 65 := by
  constructor
  · have h0 := signEIP7702Tx_build hS chainId userPriv relayerNonce userNonce gasTip gasFeeCap
      gasLimit relayerPriv contractAddr txData haddrW haddrL hdataW hdataL hcid htip hcap hrN huN hgl
    rw [h0]
    simp [signedTxItems, outerSig, outerPayload]
  · exact (hS _ _).1

theorem c2_outer_signature_witness :
    SignOk dummyCrypto ∧ zeroAddress.length = 20
    ∧ signEIP7702Tx dummyCrypto
        (build7702Tx dummyCrypto 1 7 12 5 100000000 2100000000 100000 zeroAddress []) 9
      = some (hexEncode (SET_CODE_TX_TYPE :: rlpEncode (.list
          (signedTxItems dummyCrypto 1 7 12 5 100000000 2100000000 100000 zeroAddress [] 9)))) := by
  refine ⟨dummyCrypto_signOk, by decide, ?_⟩
  have h := (c2_outer_signature dummyCrypto_signOk 1 7 12 5 100000000 2100000000 100000 9
    zeroAddress [] (by decide) (by decide) (by simp) (by norm_num) (by norm_num) (by norm_num)
    (by norm_num) (by norm_num) (by norm_num) (by norm_num)).1
  rw [h]
  simp [signedTxItems, outerSig, outerPayload]

/-- C9: GenerateSet7702AuthTx as defined in pkg/cmd/clear.go ignores the
request's TemplateAddress — any two template addresses yield identical bytes,
equal to the zero-address (clear) result, so the Set command produces the same
transaction bytes as a clear operation for the same keys, nonces and fee
parameters — while the variant in src/unnamed/part_001 passes TemplateAddress
through to build7702Tx. -/
theorem c9_template_ignored (C : Crypto) (req : SetAuthorizationRequest) (t1 t2 : List Nat) :
    GenerateSet7702AuthTx C { req with TemplateAddress := t1 }
      = GenerateSet7702AuthTx C { req with TemplateAddress := t2 }
    ∧ GenerateSet7702AuthTx C req
      = GenerateSet7702AuthTxV1 C { req with TemplateAddress := zeroAddress }
    ∧ GenerateSet7702AuthTxV1 C req
      = signEIP7702Tx C (build7702Tx C req.ChainId req.UserEOAPrivateKey req.RelayerNonce
          req.UserEOANonce req.GasTip req.GasFeeCap req.GasLimit req.TemplateAddress [])
          req.RelayerEOAPrivateKey :=
  ⟨rfl, rfl, rfl⟩

/-- C3 (amended): in the end-to-end scenario (authorizer nonce 5, relayer
nonce 12, chain id 1, zero-address delegate, gas limit 100000, priority fee
100000000, fee cap 2100000000) the generated signed transaction is a
type-0x04 payload whose top-level RLP list has exactly thirteen elements —
the ten envelope fields plus the three appended outer signature fields — and
whose embedded authorization list has exactly one entry
[chain_id, delegate, nonce, recovery_id, r, s] whose recovery id fits in a
single byte and whose r and s are big-endian integers of at most 32 bytes
each. -/
theorem c3_signed_scenario {C : Crypto} (hS : SignOk C) (userPriv relayerPriv : Nat) :
    ∃ txBytes tops,
      GenerateSet7702AuthTx C (scenarioReq userPriv relayerPriv)
        = some (hexEncode (SET_CODE_TX_TYPE :: txBytes))
      ∧ rlpSplitTop txBytes = some tops
      ∧ tops.length = 13
      ∧ rlpSplitTop (tops.getD 9 [])
          = some [rlpEncode (.list (authSigItems C 1 zeroAddress 5 userPriv))]
      ∧ ∃ y r s,
          authSigItems C 1 zeroAddress 5 userPriv
            = [natRLP 1, .bytes zeroAddress, natRLP 5, natRLP y, natRLP r, natRLP s]
          ∧ (natToBEBytes y).length ≤ 1
          ∧ (natToBEBytes r).length ≤ 32
          ∧ (natToBEBytes s).length ≤ 32 := by
  have hb : ∀ b ∈ zeroAddress, b < 256 := by decide
  have hbl : zeroAddress.length = 20 := by decide
  have hdW : ∀ b ∈ ([] : List Nat), b < 256 := by simp
  have hdL : ([] : List Nat).length < 2 ^ 32 := by norm_num
  have h0 := signEIP7702Tx_build hS 1 userPriv 12 5 100000000 2100000000 100000 relayerPriv
    zeroAddress [] hb hbl hdW hdL (by norm_num) (by norm_num) (by norm_num) (by norm_num)
    (by norm_num) (by norm_num)
  obtain ⟨hg13, hl13⟩ := signedTx_good hS userPriv relayerPriv hb hbl hdW hdL
    (show (1:Nat) < 2 ^ 256 by norm_num) (show (100000000:Nat) < 2 ^ 256 by norm_num)
    (show (2100000000:Nat) < 2 ^ 256 by norm_num) (show (12:Nat) < 2 ^ 64 by norm_num)
    (show (5:Nat) < 2 ^ 64 by norm_num) (show (100000:Nat) < 2 ^ 64 by norm_num)
  refine ⟨rlpEncode (.list (signedTxItems C 1 userPriv 12 5 100000000 2100000000 100000 zeroAddress [] relayerPriv)),
    (signedTxItems C 1 userPriv 12 5 100000000 2100000000 100000 zeroAddress [] relayerPriv).map rlpEncode,
    h0, rlpSplitTop_encode hg13 hl13, rfl, ?_, ?_⟩
  · have h9 : ((signedTxItems C 1 userPriv 12 5 100000000 2100000000 100000 zeroAddress [] relayerPriv).map rlpEncode).getD 9 []
        = rlpEncode (.list [.list (authSigItems C 1 zeroAddress 5 userPriv)]) := rfl
    rw [h9]
    have hga : GoodList [RLPItem.list (authSigItems C 1 zeroAddress 5 userPriv)] :=
      (goodList_cons_iff _ _).mpr ⟨(goodItem_list_iff _).mpr
        ⟨lt_of_le_of_lt (encList_authSigItems_le hS userPriv (by norm_num) (by norm_num) hbl)
          (by norm_num),
         goodList_authSigItems hS userPriv (by norm_num) (by norm_num) hb hbl⟩, goodList_nil⟩
    have hla : (rlpEncodeList [RLPItem.list (authSigItems C 1 zeroAddress 5 userPriv)]).length < 2 ^ 64 := by
      rw [rlpEncodeList_cons, rlpEncodeList_nil]
      have h1 : (rlpEncode (.list (authSigItems C 1 zeroAddress 5 userPriv))).length ≤ 209 := by
        rw [rlpEncode_list_def]
        have h3 := encList_authSigItems_le hS userPriv
          (show (1:Nat) < 2 ^ 256 by norm_num) (show (5:Nat) < 2 ^ 64 by norm_num) hbl
        have h2 := rlpWrapPayload_length_le
          (lt_of_le_of_lt h3 (show (200:Nat) < 2 ^ 64 by norm_num))
        omega
      have h4 : (rlpEncode (RLPItem.list (authSigItems C 1 zeroAddress 5 userPriv)) ++ []).length
          = (rlpEncode (RLPItem.list (authSigItems C 1 zeroAddress 5 userPriv))).length := by simp
      rw [h4]
      have h5 : (209:Nat) < 2 ^ 64 := by norm_num
      omega
    have h6 := rlpSplitTop_encode hga hla
    simpa using h6
  · refine ⟨(C.sign (authTupleMessage C 1 zeroAddress 5) userPriv).getD 64 0,
      natFromBEBytes ((C.sign (authTupleMessage C 1 zeroAddress 5) userPriv).take 32),
      natFromBEBytes (((C.sign (authTupleMessage C 1 zeroAddress 5) userPriv).drop 32).take 32),
      rfl, ?_, ?_, ?_⟩
    · refine natToBEBytes_len_le ?_
      simpa using sig_getD_lt hS (authTupleMessage C 1 zeroAddress 5) userPriv
    · refine natToBEBytes_len_le ?_
      have h7 := sigR_lt hS (authTupleMessage C 1 zeroAddress 5) userPriv
      norm_num at h7 ⊢
      omega
    · refine natToBEBytes_len_le ?_
      have h7 := sigS_lt hS (authTupleMessage C 1 zeroAddress 5) userPriv
      norm_num at h7 ⊢
      omega

theorem c3_signed_scenario_witness :
    SignOk dummyCrypto
    ∧ ∃ txBytes tops,
      GenerateSet7702AuthTx dummyCrypto (scenarioReq 7 9)
        = some (hexEncode (SET_CODE_TX_TYPE :: txBytes))
      ∧ rlpSplitTop txBytes = some tops
      ∧ tops.length = 13
      ∧ rlpSplitTop (tops.getD 9 [])
          = some [rlpEncode (.list (authSigItems dummyCrypto 1 zeroAddress 5 7))]
      ∧ ∃ y r s,
          authSigItems dummyCrypto 1 zeroAddress 5 7
            = [natRLP 1, .bytes zeroAddress, natRLP 5, natRLP y, natRLP r, natRLP s]
          ∧ (natToBEBytes y).length ≤ 1
          ∧ (natToBEBytes r).length ≤ 32
          ∧ (natToBEBytes s).length ≤ 32 :=
  ⟨dummyCrypto_signOk, c3_signed_scenario dummyCrypto_signOk 7 9⟩

/-- C3 counterexample: at the specified end-to-end scenario, with concrete
primitives honouring the library contracts, the signed payload's top-level
RLP list has thirteen elements — not ten as the claim states. -/
theorem c3_counterexample :
    (GenerateSet7702AuthTx dummyCrypto (scenarioReq 7 9)).bind
        (fun out => (hexDecode out).bind (fun tb => (rlpSplitTop (tb.drop 1)).map List.length))
      = some 13
    ∧ ¬ (GenerateSet7702AuthTx dummyCrypto (scenarioReq 7 9)).bind
        (fun out => (hexDecode out).bind (fun tb => (rlpSplitTop (tb.drop 1)).map List.length))
      = some 10 := by
  have hS := dummyCrypto_signOk
  have hb : ∀ b ∈ zeroAddress, b < 256 := by decide
  have hbl : zeroAddress.length = 20 := by decide
  have hdW : ∀ b ∈ ([] : List Nat), b < 256 := by simp
  have hdL : ([] : List Nat).length < 2 ^ 32 := by norm_num
  have h0 := signEIP7702Tx_build hS 1 7 12 5 100000000 2100000000 100000 9
    zeroAddress [] hb hbl hdW hdL (by norm_num) (by norm_num) (by norm_num) (by norm_num)
    (by norm_num) (by norm_num)
  obtain ⟨hg13, hl13⟩ := signedTx_good hS 7 9 hb hbl hdW hdL
    (show (1:Nat) < 2 ^ 256 by norm_num) (show (100000000:Nat) < 2 ^ 256 by norm_num)
    (show (2100000000:Nat) < 2 ^ 256 by norm_num) (show (12:Nat) < 2 ^ 64 by norm_num)
    (show (5:Nat) < 2 ^ 64 by norm_num) (show (100000:Nat) < 2 ^ 64 by norm_num)
  have hwf13 : ∀ b ∈ (SET_CODE_TX_TYPE :: rlpEncode (.list (signedTxItems dummyCrypto 1 7 12 5 100000000 2100000000 100000 zeroAddress [] 9))), b < 256 := by
    intro b hbm
    rcases List.mem_cons.mp hbm with rfl | hb2
    · norm_num [SET_CODE_TX_TYPE]
    · exact rlpEncode_wf _ ((goodItem_list_iff _).mpr ⟨hl13, hg13⟩) b hb2
  have hgen : GenerateSet7702AuthTx dummyCrypto (scenarioReq 7 9)
      = some (hexEncode (SET_CODE_TX_TYPE :: rlpEncode (.list (signedTxItems dummyCrypto 1 7 12 5 100000000 2100000000 100000 zeroAddress [] 9)))) := h0
  rw [hgen]
  simp only [Option.some_bind]
  rw [hexDecode_encode hwf13]
  simp only [Option.some_bind]
  have hdrop : (SET_CODE_TX_TYPE :: rlpEncode (.list (signedTxItems dummyCrypto 1 7 12 5 100000000 2100000000 100000 zeroAddress [] 9))).drop 1
      = rlpEncode (.list (signedTxItems dummyCrypto 1 7 12 5 100000000 2100000000 100000 zeroAddress [] 9)) := rfl
  rw [hdrop, rlpSplitTop_encode hg13 hl13]
  constructor
  · rfl
  · intro hcontra
    simp at hcontra
    have hlen13eq : (signedTxItems dummyCrypto 1 7 12 5 100000000 2100000000 100000 zeroAddress [] 9).length = 13 := rfl
    omega

/-- C4: for every network-suggested priority fee strictly below the
0.1 × 10⁹ floor, the returned priority fee equals exactly the floor and the
returned fee cap equals 2 × base_fee + the raised priority fee (recomputed
from the floored value); in the legacy fallback a gas price below the floor
is likewise raised to the floor before being returned as both values. -/
theorem c4_fee_floor (net : FeeNetwork) (pf baseFee gp : Nat)
    (hpf : net.priorityFee = some pf) (hbf : net.blockFetch = some (some baseFee))
    (hlow : pf < minPriorityFee) (hgp : net.gasPrice = some gp) (hgplow : gp < minPriorityFee) :
    getSuggestedGasFees net = some (minPriorityFee, 2 * baseFee + minPriorityFee)
    ∧ fallbackGasFees net = some (minPriorityFee, minPriorityFee) := by
  constructor
  · unfold getSuggestedGasFees
    rw [hpf, hbf]
    simp [hlow]
  · unfold fallbackGasFees
    rw [hgp]
    simp [hgplow]

theorem c4_fee_floor_witness :
    (FeeNetwork.mk (some 5) (some (some 1000)) (some 7)).priorityFee = some 5
    ∧ (FeeNetwork.mk (some 5) (some (some 1000)) (some 7)).blockFetch = some (some 1000)
    ∧ 5 < minPriorityFee
    ∧ (FeeNetwork.mk (some 5) (some (some 1000)) (some 7)).gasPrice = some 7
    ∧ 7 < minPriorityFee
    ∧ (getSuggestedGasFees ⟨some 5, some (some 1000), some 7⟩
        = some (minPriorityFee, 2 * 1000 + minPriorityFee)
       ∧ fallbackGasFees ⟨some 5, some (some 1000), some 7⟩
        = some (minPriorityFee, minPriorityFee)) :=
  ⟨rfl, rfl, by decide, rfl, by decide,
    c4_fee_floor ⟨some 5, some (some 1000), some 7⟩ 5 1000 7 rfl rfl (by decide) rfl (by decide)⟩

/-- C5: the Code Inspector classifies every fetched code string in exactly
three mutually exclusive ways: empty or the bare "0x" sentinel is safe;
code whose lowercase hex begins with ef0100 is delegated, the delegate
address being recovered by stripping the 3-byte marker and reading the
remainder — for well-formed delegation code, exactly the remaining 20 bytes
(40 hex characters) — as an address; any other non-empty code is an
unclassified contract. -/
theorem c5_code_classification (code h20 : List Char) (hlen : h20.length = 40) :
    (code = [] ∨ code = ['0', 'x'] → classifyCode code = .safe)
    ∧ (¬ (code = [] ∨ code = ['0', 'x']) →
        ((strip0x code).map asciiLower).take 6 = delegationMarker →
        classifyCode code = .delegated (['0', 'x'] ++ (strip0x code).drop 6))
    ∧ (¬ (code = [] ∨ code = ['0', 'x']) →
        ((strip0x code).map asciiLower).take 6 ≠ delegationMarker →
        classifyCode code = .contract)
    ∧ classifyCode (['0', 'x'] ++ delegationMarker ++ h20) = .delegated (['0', 'x'] ++ h20)
    ∧ (['0', 'x'] ++ h20).length = 42 := by
  refine ⟨?_, ?_, ?_, rfl, by simp [hlen]⟩
  · intro hc
    unfold classifyCode
    rw [if_pos hc]
  · intro hc hm
    unfold classifyCode
    rw [if_neg hc, if_pos hm]
  · intro hc hm
    unfold classifyCode
    rw [if_neg hc, if_neg hm]

theorem c5_code_classification_witness :
    (List.replicate 40 'a').length = 40
    ∧ classifyCode [] = .safe
    ∧ classifyCode ['0', 'x'] = .safe
    ∧ classifyCode ['0', 'x', '6', '0', '0', '1'] = .contract
    ∧ classifyCode (['0', 'x'] ++ delegationMarker ++ List.replicate 40 'a')
        = .delegated (['0', 'x'] ++ List.replicate 40 'a')
    ∧ (['0', 'x'] ++ List.replicate 40 'a').length = 42 := by
  have h := c5_code_classification ['0', 'x', '6', '0', '0', '1'] (List.replicate 40 'a')
    (by decide)
  exact ⟨by decide,
    (c5_code_classification [] (List.replicate 40 'a') (by decide)).1 (Or.inl rfl),
    (c5_code_classification ['0', 'x'] (List.replicate 40 'a') (by decide)).1 (Or.inr rfl),
    h.2.2.1 (by decide) (by decide), h.2.2.2.1, h.2.2.2.2⟩

/-- A run of failed or empty polls leaves the loop where it was. -/
theorem waitForReceipt_replicate (h : List Char) (k : Nat) (l : List (Option (List Char))) :
    waitForReceipt h (List.replicate k none ++ l) = waitForReceipt h l := by
  induction k with
  | zero => rfl
  | succ k ih =>
    rw [List.replicate_succ, List.cons_append]
    exact ih

/-- A sequence with no receipt at all times out. -/
theorem waitForReceipt_all_none (h : List Char) (l : List (Option (List Char)))
    (hall : ∀ x ∈ l, x = none) : waitForReceipt h l = .ok .timedOut := by
  induction l with
  | nil => rfl
  | cons x rest ih =>
    have hx : x = none := hall x (by simp)
    subst hx
    exact ih (fun y hy => hall y (by simp [hy]))

/-- C6: during confirmation, a receipt with status 0x1 at any of the up-to-60
polls (after any run of absent receipts) terminates the operation
successfully; a receipt with status 0x0 terminates it as a failure naming the
transaction hash; and exhausting all 60 polls with no receipt terminates as
TimedOut, which is returned normally — never as a failure. -/
theorem c6_confirmation (k : Nat) (hk : k < 60) (rest polls : List (Option (List Char)))
    (h : List Char) (hall : ∀ x ∈ polls, x = none) :
    clearConfirm h (List.replicate k none ++ some ['0', 'x', '1'] :: rest) = .ok .mined
    ∧ clearConfirm h (List.replicate k none ++ some ['0', 'x', '0'] :: rest)
        = .error (.txFailed h)
    ∧ clearConfirm h polls = .ok .timedOut := by
  have hsplit : ∀ st : List Char,
      (List.replicate k none ++ some st :: rest).take 60
        = List.replicate k none ++ some st :: rest.take (59 - k) := by
    intro st
    rw [List.take_append_eq_append_take]
    have h1 : (List.replicate k (none : Option (List Char))).take 60 = List.replicate k none :=
      List.take_of_length_le (by simp [List.length_replicate]; omega)
    have h2 : 60 - (List.replicate k (none : Option (List Char))).length = (59 - k) + 1 := by
      simp [List.length_replicate]
      omega
    rw [h1, h2, List.take_succ_cons]
  refine ⟨?_, ?_, ?_⟩
  · unfold clearConfirm
    rw [hsplit, waitForReceipt_replicate]
    rfl
  · unfold clearConfirm
    rw [hsplit, waitForReceipt_replicate]
    rfl
  · unfold clearConfirm
    exact waitForReceipt_all_none h _ (fun x hx => hall x (List.mem_of_mem_take hx))

theorem c6_confirmation_witness :
    2 < 60
    ∧ (clearConfirm ['h'] (List.replicate 2 none ++ some ['0', 'x', '1'] :: []) = .ok .mined
       ∧ clearConfirm ['h'] (List.replicate 2 none ++ some ['0', 'x', '0'] :: [])
          = .error (.txFailed ['h'])
       ∧ clearConfirm ['h'] [none, none, none] = .ok .timedOut) :=
  ⟨by decide, c6_confirmation 2 (by decide) [] [none, none, none] ['h'] (by decide)⟩

/-- C7 (amended): a JSON-RPC response carrying a non-empty error message fails
the broadcast with the node's message verbatim, and a transport error
propagates; but a malformed or unreadable response body is NOT surfaced —
`broadcastRawTx` ignores the read and unmarshal errors, so that path returns
success with an empty transaction hash. -/
theorem c7_broadcast_errors (e msg res : List Char) (hmsg : msg ≠ []) :
    broadcastRawTx (.transportErr e) = .error e
    ∧ broadcastRawTx (.response (some ⟨res, msg⟩)) = .error msg
    ∧ broadcastRawTx (.response none) = .ok [] := by
  refine ⟨rfl, ?_, rfl⟩
  unfold broadcastRawTx
  simp [hmsg]

theorem c7_broadcast_errors_witness :
    (['m'] : List Char) ≠ []
    ∧ (broadcastRawTx (.transportErr ['t']) = .error ['t']
       ∧ broadcastRawTx (.response (some ⟨['r'], ['m']⟩)) = .error ['m']
       ∧ broadcastRawTx (.response none) = .ok []) :=
  ⟨by decide, c7_broadcast_errors ['t'] ['m'] ['r'] (by decide)⟩

/-- C7 counterexample: a malformed response body (failed unmarshal, zero-valued
struct) is silently swallowed — the broadcast returns success with an empty
hash instead of an error. -/
theorem c7_counterexample : broadcastRawTx (.response none) = .ok [] := rfl

/-- C8 (amended): every hex integer from the RPC layer is parsed as an
arbitrary-precision unsigned big-endian integer; chain id and gas price are
preserved exactly, but getNonce narrows the parsed value with Int64(), the
low 64 bits in two's complement, so the returned nonce equals the encoded
integer only when it is below 2⁶³. -/
theorem c8_hex_parsing (s : List Char) (v : Nat) (hv : parseHexNat s = some v) :
    getChainIDOfResult ('0' :: 'x' :: s) = some v
    ∧ getGasPriceOfResult ('0' :: 'x' :: s) = some v
    ∧ getNonceOfResult ('0' :: 'x' :: s) = some (int64OfBig v)
    ∧ (v < 2 ^ 63 → int64OfBig v = (v : Int)) := by
  have hlen : ¬ ('0' :: 'x' :: s).length < 2 := by simp
  have hbig : resultToBig ('0' :: 'x' :: s) = some v := by
    unfold resultToBig
    rw [if_neg hlen]
    show some ((parseHexNat s).getD 0) = some v
    rw [hv]
    rfl
  refine ⟨hbig, hbig, ?_, ?_⟩
  · unfold getNonceOfResult
    rw [hbig]
    rfl
  · intro hsmall
    unfold int64OfBig
    have hmod : v % 2 ^ 64 = v := Nat.mod_eq_of_lt (by omega)
    rw [hmod, if_pos hsmall]

theorem c8_hex_parsing_witness :
    parseHexNat ['5'] = some 5
    ∧ (getChainIDOfResult ['0', 'x', '5'] = some 5
       ∧ getGasPriceOfResult ['0', 'x', '5'] = some 5
       ∧ getNonceOfResult ['0', 'x', '5'] = some (int64OfBig 5)
       ∧ (5 < 2 ^ 63 → int64OfBig 5 = ((5:Nat) : Int))) :=
  ⟨by decide, c8_hex_parsing ['5'] 5 (by decide)⟩

/-- C8 counterexample: for the result string 0x10000000000000000 (2⁶⁴), the
parsed integer is 2⁶⁴ but getNonce returns 0 — the value is not preserved. -/
theorem c8_counterexample :
    parseHexNat ['1', '0', '0', '0', '0', '0', '0', '0', '0', '0', '0', '0', '0', '0', '0', '0', '0']
      = some (2 ^ 64)
    ∧ getNonceOfResult ('0' :: 'x' :: ['1', '0', '0', '0', '0', '0', '0', '0', '0', '0', '0', '0', '0', '0', '0', '0', '0'])
      = some 0
    ∧ ¬ getNonceOfResult ('0' :: 'x' :: ['1', '0', '0', '0', '0', '0', '0', '0', '0', '0', '0', '0', '0', '0', '0', '0', '0'])
      = some ((2:Int) ^ 64) := by
  refine ⟨by decide, by decide, by decide⟩

/-- C10 (amended): getChainID and getNonce slice the result string unchecked,
so any result with fewer than two characters (absent, empty or one-character)
panics — modelled as `none` — instead of returning an error; the functions
are total exactly when the result string has at least two characters, the
first two being stripped unchecked as the 0x prefix. -/
theorem c10_slice_totality (s : List Char) (hshort : s.length < 2) (t : List Char)
    (hlong : 2 ≤ t.length) :
    getChainIDOfResult s = none
    ∧ getNonceOfResult s = none
    ∧ (getChainIDOfResult t).isSome = true
    ∧ (getNonceOfResult t).isSome = true := by
  have h2 : ¬ t.length < 2 := by omega
  refine ⟨?_, ?_, ?_, ?_⟩
  · unfold getChainIDOfResult resultToBig
    rw [if_pos hshort]
  · unfold getNonceOfResult resultToBig
    rw [if_pos hshort]
    rfl
  · unfold getChainIDOfResult resultToBig
    rw [if_neg h2]
    rfl
  · unfold getNonceOfResult resultToBig
    rw [if_neg h2]
    rfl

theorem c10_slice_totality_witness :
    (['a'] : List Char).length < 2
    ∧ 2 ≤ (['z', 'z'] : List Char).length
    ∧ (getChainIDOfResult ['a'] = none
       ∧ getNonceOfResult ['a'] = none
       ∧ (getChainIDOfResult ['z', 'z']).isSome = true
       ∧ (getNonceOfResult ['z', 'z']).isSome = true) :=
  ⟨by decide, by decide, c10_slice_totality ['a'] (by decide) ['z', 'z'] (by decide)⟩

/-- C10 counterexample: the result string "zz" does not start with the 0x
prefix, yet both functions return without panicking — totality does not
require the 0x prefix, only a length of at least two. -/
theorem c10_counterexample :
    (getChainIDOfResult ['z', 'z']).isSome = true
    ∧ (getNonceOfResult ['z', 'z']).isSome = true
    ∧ ['z', 'z'].take 2 ≠ ['0', 'x'] := by
  refine ⟨by decide, by decide, by decide⟩

end EIP7702
